import Mathlib

/-!
Shallow embedding of the quantitative analytics core of the
`llm_stock_screening` repository, namely

* `scoring.py` / `compute_stock_score` — scalar ranking score
  (annualized return, maximum drawdown, OLS slope-to-noise on log prices);
* `plot_analysis.py` / `calculate_metrics` — per-day analytics frame
  (running peak, drawdown column, rolling returns) together with the key
  drawdown statistics (trough date, peak date, recovery date).

The per-day analytics run on exact rationals (ℚ); the score, which goes
through `log`, `sqrt` and a real power, is embedded over ℝ.
-/

namespace StockScreen

/-! ### Generic running-maximum scan (`np.maximum.accumulate` / `Series.cummax`) -/

/-- Tail of the running-maximum scan: `m` is the maximum seen so far. -/
def cummaxAux {α : Type*} [LinearOrder α] (m : α) : List α → List α
  | [] => []
  | a :: l => max m a :: cummaxAux (max m a) l

/-- Running maximum of a list, as computed by `np.maximum.accumulate(prices)`
(`scoring.py` line 40) and `df['Close'].cummax()` (`plot_analysis.py` line 71). -/
def cummax {α : Type*} [LinearOrder α] : List α → List α
  | [] => []
  | a :: l => a :: cummaxAux a l

/-- `np.max` over a list: fold of `max` over the elements, starting from the
first one.  The default `d` is only returned on the empty list, on which
`np.max` would raise; callers below only use it on nonempty lists. -/
def npMaxD {α : Type*} [LinearOrder α] (d : α) : List α → α
  | [] => d
  | a :: l => l.foldl max a

/-- `Series.min` over a list, same convention as `npMaxD`. -/
def npMinD {α : Type*} [LinearOrder α] (d : α) : List α → α
  | [] => d
  | a :: l => l.foldl min a

/-! ### Drawdown columns -/

/-- `drawdowns = (rolling_max - prices_arr) / rolling_max` from `scoring.py`
line 41: a non-negative drawdown magnitude per index. -/
def scoringDrawdowns {α : Type*} [LinearOrderedField α] (prices : List α) : List α :=
  List.zipWith (fun m p => (m - p) / m) (cummax prices) prices

/-- `max_dd = np.max(drawdowns)` from `scoring.py` line 42. -/
def maxDD {α : Type*} [LinearOrderedField α] (prices : List α) : α :=
  npMaxD 0 (scoringDrawdowns prices)

/-- `df['Drawdown'] = (df['Close'] - df['Peak']) / df['Peak']` from
`plot_analysis.py` line 72: a non-positive per-day drawdown column. -/
def plotDrawdown {α : Type*} [LinearOrderedField α] (close : List α) : List α :=
  List.zipWith (fun p m => (p - m) / m) close (cummax close)

/-! ### Positional helpers for the key statistics of `calculate_metrics` -/

/-- Position of the first occurrence of the minimum of a list
(`Series.idxmin` on a frame indexed by position; pandas keeps the first
occurrence under strict `<` comparison). -/
def argminIdx : List ℚ → ℕ
  | [] => 0
  | [_] => 0
  | a :: b :: l =>
    if (b :: l).getD (argminIdx (b :: l)) 0 < a then argminIdx (b :: l) + 1 else 0

/-- Position of the first element equal to `v`
(`df[df['Close'] == peak_value].index[0]`, `plot_analysis.py` line 84).
Returns the length of the list when no element matches. -/
def firstIdxEq : List ℚ → ℚ → ℕ
  | [], _ => 0
  | a :: l, v => if a = v then 0 else firstIdxEq l v + 1

/-- Position of the first element `≥ v`, if any
(`post_trough_df[post_trough_df['Close'] >= peak_value].index`,
`plot_analysis.py` line 86). -/
def firstIdxGe : List ℚ → ℚ → Option ℕ
  | [], _ => none
  | a :: l, v => if v ≤ a then some 0 else (firstIdxGe l v).map (· + 1)

/-- Index of the maximum-drawdown trough: `df['Drawdown'].idxmin()`
(`plot_analysis.py` line 81), as a position in the series. -/
def mddIdx (close : List ℚ) : ℕ := argminIdx (plotDrawdown close)

/-- `peak_value = df.loc[stats['max_drawdown_date'], 'Peak']`
(`plot_analysis.py` line 83): the running peak at the trough. -/
def peakValue (close : List ℚ) : ℚ := (cummax close).getD (mddIdx close) 0

/-- `stats['peak_date'] = df[df['Close'] == peak_value].index[0]`
(`plot_analysis.py` line 84), as a position: the first position in the whole
series whose price equals `peakValue`. -/
def peakIdx (close : List ℚ) : ℕ := firstIdxEq close (peakValue close)

/-- `recovery_dates[0] if len(recovery_dates) > 0 else None`
(`plot_analysis.py` lines 85-87), as a position: first position at or after
the trough whose price is at least `peakValue`.  The label slice
`df.loc[mdd_date:]` is positional `drop` because the date index is strictly
increasing. -/
def recoveryIdx (close : List ℚ) : Option ℕ :=
  (firstIdxGe (close.drop (mddIdx close)) (peakValue close)).map (mddIdx close + ·)

/-! ### Rolling returns -/

/-- `Series.pct_change(periods=n)`: value at position `t` is absent for
`t < n` and `close[t]/close[t-n] - 1` afterwards (`plot_analysis.py`
lines 75-77). -/
def pctChange (n : ℕ) (close : List ℚ) : List (Option ℚ) :=
  (List.range close.length).map fun t =>
    if t < n then none else some (close.getD t 0 / close.getD (t - n) 0 - 1)

/-- `df['Return_1Y'] = df['Close'].pct_change(periods=252)`. -/
def return1Y (close : List ℚ) : List (Option ℚ) := pctChange 252 close

/-- `df['Return_2Y'] = df['Close'].pct_change(periods=504)`. -/
def return2Y (close : List ℚ) : List (Option ℚ) := pctChange 504 close

/-- `df['Return_3Y'] = df['Close'].pct_change(periods=252*3)`. -/
def return3Y (close : List ℚ) : List (Option ℚ) := pctChange (252 * 3) close

/-! ### The analytics frame of `calculate_metrics` -/

/-- The date-indexed frame handed to `calculate_metrics`: a strictly
increasing date index (modelled as natural-number labels) with a close-price
column, plus the derived columns, absent (`none`) until computed. -/
structure Frame where
  dates : List ℕ
  close : List ℚ
  peak : Option (List ℚ) := none
  drawdown : Option (List ℚ) := none
  ret1Y : Option (List (Option ℚ)) := none
  ret2Y : Option (List (Option ℚ)) := none
  ret3Y : Option (List (Option ℚ)) := none
  deriving DecidableEq, Repr

/-- The `stats` dictionary built by `calculate_metrics` lines 80-87. -/
structure Stats where
  maxDrawdownDate : ℕ
  maxDrawdownValue : ℚ
  peakDate : ℕ
  recoveryDate : Option ℕ
  deriving DecidableEq, Repr

/-- `calculate_metrics(df)` (`plot_analysis.py` lines 65-89).  The Python
function assigns the five derived columns onto the frame object it was passed
(an in-place extension of the caller's frame, made explicit here as the
returned frame) and builds the key statistics.  Date labels are recovered
from positions through the frame's date index. -/
def calculateMetrics (df : Frame) : Frame × Stats :=
  let close := df.close
  ({ df with
      peak := some (cummax close)
      drawdown := some (plotDrawdown close)
      ret1Y := some (return1Y close)
      ret2Y := some (return2Y close)
      ret3Y := some (return3Y close) },
   { maxDrawdownDate := df.dates.getD (mddIdx close) 0
     maxDrawdownValue := npMinD 0 (plotDrawdown close)
     peakDate := df.dates.getD (peakIdx close) 0
     recoveryDate := (recoveryIdx close).map fun i => df.dates.getD i 0 })

/-! ### The scorer of `scoring.py`, over ℝ -/

/-- `log_prices = np.log(prices_arr)` (`scoring.py` line 36). -/
noncomputable def logPrices (prices : List ℝ) : List ℝ := prices.map Real.log

/-- `np.mean` of a list (used for the OLS fit and `np.std`). -/
noncomputable def listMean (l : List ℝ) : ℝ := l.sum / (l.length : ℝ)

/-- `x = np.arange(n)` as real numbers (`scoring.py` line 45). -/
def idxList (n : ℕ) : List ℝ := (List.range n).map fun i => (i : ℝ)

/-- Slope of `LinearRegression().fit(x, y)` for the single integer feature
`x = 0..n-1` (`scoring.py` lines 46-47): the ordinary least-squares
coefficient `Sxy / Sxx` of the centred data. -/
noncomputable def olsSlope (y : List ℝ) : ℝ :=
  let x := idxList y.length
  (List.zipWith (fun xi yi => (xi - listMean x) * (yi - listMean y)) x y).sum /
    ((x.map fun xi => (xi - listMean x) ^ 2).sum)

/-- Intercept of the same fit: `mean y - slope * mean x`. -/
noncomputable def olsIntercept (y : List ℝ) : ℝ :=
  listMean y - olsSlope y * listMean (idxList y.length)

/-- `residuals = log_prices - model.predict(x)` (`scoring.py` line 48). -/
noncomputable def olsResiduals (y : List ℝ) : List ℝ :=
  List.zipWith (fun yi xi => yi - (olsIntercept y + olsSlope y * xi)) y (idxList y.length)

/-- `np.std` (population standard deviation, ddof = 0):
`sqrt(mean((l - mean l)^2))`. -/
noncomputable def npStd (l : List ℝ) : ℝ :=
  Real.sqrt (listMean (l.map fun a => (a - listMean l) ^ 2))

/-- `noise = np.std(residuals)` (`scoring.py` line 49). -/
noncomputable def noise (prices : List ℝ) : ℝ := npStd (olsResiduals (logPrices prices))

/-- `slope_to_noise = slope / noise if noise != 0 else 0` (`scoring.py`
line 50). -/
noncomputable def slopeToNoise (prices : List ℝ) : ℝ :=
  if noise prices ≠ 0 then olsSlope (logPrices prices) / noise prices else 0

/-- `ann_return = (prices_arr[-1] / prices_arr[0]) ** (annualization_factor /
len(prices_arr)) - 1` (`scoring.py` line 39); the power is a real power. -/
noncomputable def annReturn (prices : List ℝ) (af : ℕ) : ℝ :=
  (prices.getLastD 0 / prices.headD 0) ^ ((af : ℝ) / (prices.length : ℝ)) - 1

/-- The exception a Python caller of `compute_stock_score` can observe: the
`ValueError` raised by the input validation of `LinearRegression().fit` when
`log_prices` contains a non-finite entry (the spec's §7 files this failure
class under `DomainError`). -/
inductive PyError : Type
  | valueError : PyError
  deriving DecidableEq

open Classical in
/-- `compute_stock_score(price_series, ann_return_weight, max_dd_weight,
slope_to_noise_weight, annualization_factor)` (`scoring.py` lines 31-55).
The score is an extended real so that the `-np.inf` sentinel for series
shorter than 2 is the value `⊥`; the result is wrapped in `Except PyError`
to make exception propagation to the caller observable.  The body performs
no validation of its own, but when a series of length ≥ 2 contains a
non-positive price, `np.log` yields a NaN or `-inf` entry (with a warning,
not an exception) and `LinearRegression().fit(x, log_prices)` at line 46
then raises `ValueError`; the intermediate `ann_return` and `max_dd` values
computed before line 46 are discarded when that exception propagates, so the
raise is modelled as the guard below. -/
noncomputable def computeScore (prices : List ℝ)
    (annRetW maxDDW stnW : ℝ) (af : ℕ) : Except PyError EReal :=
  if prices.length < 2 then .ok ⊥
  else if ∃ x ∈ prices, x ≤ 0 then .error PyError.valueError
  else .ok (((annRetW * annReturn prices af + maxDDW * maxDD prices +
      stnW * slopeToNoise prices : ℝ) : EReal))

/-! ### Toolkit lemmas about the running maximum -/

section CummaxLemmas

variable {α : Type*} [LinearOrder α]

theorem length_cummaxAux (m : α) : ∀ l : List α, (cummaxAux m l).length = l.length
  | [] => rfl
  | a :: l => by simp [cummaxAux, length_cummaxAux]

theorem length_cummax : ∀ l : List α, (cummax l).length = l.length
  | [] => rfl
  | a :: l => by simp [cummax, length_cummaxAux]

theorem getD_le_cummaxAux (d : α) :
    ∀ (m : α) (l : List α) (t : ℕ), t < l.length → l.getD t d ≤ (cummaxAux m l).getD t d
  | _, [], _, ht => absurd ht (by simp)
  | m, a :: l, 0, _ => by simp [cummaxAux]
  | m, a :: l, t + 1, ht => by
    simpa [cummaxAux] using getD_le_cummaxAux d (max m a) l t (by simpa using ht)

theorem getD_le_cummax (d : α) :
    ∀ (l : List α) (t : ℕ), t < l.length → l.getD t d ≤ (cummax l).getD t d
  | [], _, ht => absurd ht (by simp)
  | a :: l, 0, _ => by simp [cummax]
  | a :: l, t + 1, ht => by
    simpa [cummax] using getD_le_cummaxAux d a l t (by simpa using ht)

theorem lt_of_mem_cummaxAux {c : α} :
    ∀ {m : α} {l : List α}, c < m → (∀ x ∈ l, c < x) → ∀ a ∈ cummaxAux m l, c < a
  | _, [], _, _, _, ha => absurd ha (by simp [cummaxAux])
  | m, x :: l, hm, hl, a, ha => by
    rcases (by simpa [cummaxAux] using ha : a = max m x ∨ a ∈ cummaxAux (max m x) l) with
      h | h
    · exact h ▸ lt_max_of_lt_left hm
    · exact lt_of_mem_cummaxAux (lt_max_of_lt_left hm)
        (fun y hy => hl y (List.mem_cons_of_mem _ hy)) a h

theorem lt_of_mem_cummax {c : α} {l : List α} (hl : ∀ x ∈ l, c < x) :
    ∀ a ∈ cummax l, c < a := by
  match l with
  | [] => simp [cummax]
  | x :: l =>
    intro a ha
    rcases (by simpa [cummax] using ha : a = x ∨ a ∈ cummaxAux x l) with h | h
    · exact h ▸ hl x (by simp)
    · exact lt_of_mem_cummaxAux (hl x (by simp))
        (fun y hy => hl y (List.mem_cons_of_mem _ hy)) a h

theorem chain_le_cummaxAux : ∀ (m : α) (l : List α), List.Chain (· ≤ ·) m (cummaxAux m l)
  | _, [] => List.Chain.nil
  | m, a :: l => by
    exact List.Chain.cons (le_max_left m a) (chain_le_cummaxAux (max m a) l)

theorem chain'_cummax : ∀ l : List α, List.Chain' (· ≤ ·) (cummax l)
  | [] => List.chain'_nil
  | a :: l => by
    rw [cummax]
    exact chain_le_cummaxAux a l

theorem cummax_getD_mono (l : List α) (d : α) {i j : ℕ} (hij : i ≤ j)
    (hj : j < l.length) : (cummax l).getD i d ≤ (cummax l).getD j d := by
  rcases eq_or_lt_of_le hij with rfl | hlt
  · exact le_refl _
  · have hp : (cummax l).Pairwise (· ≤ ·) :=
      List.chain'_iff_pairwise.mp (chain'_cummax l)
    have hj' : j < (cummax l).length := by rwa [length_cummax]
    have hi' : i < (cummax l).length := lt_trans (by omega) hj'
    rw [List.getD_eq_getElem _ _ hi', List.getD_eq_getElem _ _ hj']
    exact List.pairwise_iff_getElem.mp hp i j hi' hj' hlt

theorem cummaxAux_getD_attained (d : α) :
    ∀ (m : α) (l : List α) (t : ℕ), t < l.length →
      (cummaxAux m l).getD t d = m ∨ ∃ s ≤ t, (cummaxAux m l).getD t d = l.getD s d
  | _, [], _, ht => absurd ht (by simp)
  | m, a :: l, 0, _ => by
    rcases max_choice m a with h | h
    · exact Or.inl (by simpa [cummaxAux] using h)
    · exact Or.inr ⟨0, le_refl 0, by simpa [cummaxAux] using h⟩
  | m, a :: l, t + 1, ht => by
    have ht' : t < l.length := by simpa using ht
    have hval : (cummaxAux m (a :: l)).getD (t + 1) d = (cummaxAux (max m a) l).getD t d := by
      simp [cummaxAux]
    rcases cummaxAux_getD_attained d (max m a) l t ht' with h | ⟨s, hs, h⟩
    · rcases max_choice m a with hma | hma
      · exact Or.inl (by rw [hval, h, hma])
      · exact Or.inr ⟨0, Nat.zero_le _, by rw [hval, h, hma]; simp⟩
    · exact Or.inr ⟨s + 1, by omega, by rw [hval, h]; simp⟩

theorem cummax_getD_attained (d : α) :
    ∀ (l : List α) (t : ℕ), t < l.length →
      ∃ s ≤ t, (cummax l).getD t d = l.getD s d
  | [], _, ht => absurd ht (by simp)
  | a :: l, 0, _ => ⟨0, le_refl 0, by simp [cummax]⟩
  | a :: l, t + 1, ht => by
    have ht' : t < l.length := by simpa using ht
    have hval : (cummax (a :: l)).getD (t + 1) d = (cummaxAux a l).getD t d := by
      simp [cummax]
    rcases cummaxAux_getD_attained d a l t ht' with h | ⟨s, hs, h⟩
    · exact ⟨0, Nat.zero_le _, by rw [hval, h]; simp⟩
    · exact ⟨s + 1, by omega, by rw [hval, h]; simp⟩

theorem cummaxAux_eq_self_of_chain :
    ∀ {m : α} {l : List α}, List.Chain (· ≤ ·) m l → cummaxAux m l = l
  | _, [], _ => rfl
  | m, a :: l, h => by
    rcases List.chain_cons.mp h with ⟨hma, hal⟩
    rw [cummaxAux, max_eq_right hma, cummaxAux_eq_self_of_chain hal]

theorem chain_of_cummaxAux_eq_self :
    ∀ {m : α} {l : List α}, cummaxAux m l = l → List.Chain (· ≤ ·) m l
  | _, [], _ => List.Chain.nil
  | m, a :: l, h => by
    rw [cummaxAux] at h
    have h1 : max m a = a := (List.cons.injEq _ _ _ _ ▸ h).1
    have h2 : cummaxAux (max m a) l = l := (List.cons.injEq _ _ _ _ ▸ h).2
    rw [h1] at h2
    exact List.chain_cons.mpr ⟨max_eq_right_iff.mp h1, chain_of_cummaxAux_eq_self h2⟩

theorem cummax_eq_self_iff_chain' (l : List α) :
    cummax l = l ↔ List.Chain' (· ≤ ·) l := by
  match l with
  | [] => exact iff_of_true rfl List.chain'_nil
  | a :: l =>
    rw [cummax]
    constructor
    · intro h
      have h2 : cummaxAux a l = l := by injection h
      exact chain_of_cummaxAux_eq_self h2
    · intro h
      have h' : List.Chain (· ≤ ·) a l := h
      rw [cummaxAux_eq_self_of_chain h']

end CummaxLemmas

/-! ### Toolkit lemmas about `npMaxD` -/

section NpMaxLemmas

variable {α : Type*} [LinearOrder α]

theorem le_foldl_max : ∀ (l : List α) (a : α), a ≤ l.foldl max a
  | [], _ => le_refl _
  | x :: l, a => le_trans (le_max_left a x) (le_foldl_max l (max a x))

theorem le_foldl_max_of_mem {x : α} :
    ∀ {l : List α} (a : α), x ∈ l → x ≤ l.foldl max a
  | [], _, hx => absurd hx (by simp)
  | y :: l, a, hx => by
    rcases List.mem_cons.mp hx with rfl | hx
    · exact le_trans (le_max_right a x) (le_foldl_max l (max a x))
    · exact le_foldl_max_of_mem (max a y) hx

theorem foldl_max_le {b : α} :
    ∀ (l : List α) (a : α), a ≤ b → (∀ x ∈ l, x ≤ b) → l.foldl max a ≤ b
  | [], _, ha, _ => ha
  | x :: l, a, ha, hl => by
    simp only [List.foldl_cons]
    exact foldl_max_le l (max a x) (max_le ha (hl x (by simp)))
      (fun y hy => hl y (List.mem_cons_of_mem _ hy))

theorem foldl_max_mem : ∀ (l : List α) (a : α), l.foldl max a = a ∨ l.foldl max a ∈ l
  | [], _ => Or.inl rfl
  | x :: l, a => by
    simp only [List.foldl_cons]
    rcases foldl_max_mem l (max a x) with h | h
    · rcases max_choice a x with hax | hax
      · exact Or.inl (h.trans hax)
      · exact Or.inr (by rw [h, hax]; exact List.mem_cons_self x l)
    · exact Or.inr (List.mem_cons_of_mem _ h)

theorem npMaxD_mem (d : α) : ∀ {l : List α}, l ≠ [] → npMaxD d l ∈ l
  | [], h => absurd rfl h
  | a :: l, _ => by
    rw [npMaxD]
    rcases foldl_max_mem l a with h | h
    · rw [h]
      exact List.mem_cons_self a l
    · exact List.mem_cons_of_mem _ h

theorem le_npMaxD_of_mem (d : α) {x : α} : ∀ {l : List α}, x ∈ l → x ≤ npMaxD d l
  | [], hx => absurd hx (by simp)
  | a :: l, hx => by
    rw [npMaxD]
    rcases List.mem_cons.mp hx with rfl | hx
    · exact le_foldl_max l x
    · exact le_foldl_max_of_mem a hx

theorem npMaxD_le (d : α) {b : α} :
    ∀ {l : List α}, l ≠ [] → (∀ x ∈ l, x ≤ b) → npMaxD d l ≤ b
  | [], h, _ => absurd rfl h
  | a :: l, _, hl => by
    rw [npMaxD]
    exact foldl_max_le l a (hl a (by simp))
      (fun y hy => hl y (List.mem_cons_of_mem _ hy))

end NpMaxLemmas

/-! ### Toolkit lemmas about indexing helpers -/

theorem getD_zipWith {α β γ : Type*} (f : α → β → γ) (d₁ : α) (d₂ : β) (d₃ : γ) :
    ∀ (l₁ : List α) (l₂ : List β) (t : ℕ), t < l₁.length → t < l₂.length →
      (List.zipWith f l₁ l₂).getD t d₃ = f (l₁.getD t d₁) (l₂.getD t d₂)
  | [], _, _, h₁, _ => absurd h₁ (by simp)
  | _ :: _, [], _, _, h₂ => absurd h₂ (by simp)
  | a :: l₁, b :: l₂, 0, _, _ => by simp
  | a :: l₁, b :: l₂, t + 1, h₁, h₂ => by
    simpa using getD_zipWith f d₁ d₂ d₃ l₁ l₂ t (by simpa using h₁) (by simpa using h₂)

theorem getD_mem {α : Type*} {l : List α} {t : ℕ} (ht : t < l.length) (d : α) :
    l.getD t d ∈ l := by
  rw [List.getD_eq_getElem _ _ ht]
  exact List.getElem_mem ht

theorem firstIdxEq_le {v : ℚ} :
    ∀ {l : List ℚ} {s : ℕ}, s < l.length → l.getD s 0 = v → firstIdxEq l v ≤ s
  | [], _, hs, _ => absurd hs (by simp)
  | a :: l, 0, _, h => by
    rw [firstIdxEq, if_pos (by simpa using h)]
  | a :: l, s + 1, hs, h => by
    rw [firstIdxEq]
    by_cases hav : a = v
    · rw [if_pos hav]
      exact Nat.zero_le _
    · rw [if_neg hav]
      have := firstIdxEq_le (l := l) (s := s) (by simpa using hs) (by simpa using h)
      omega

theorem getD_firstIdxEq {v : ℚ} :
    ∀ {l : List ℚ}, (∃ s, s < l.length ∧ l.getD s 0 = v) →
      l.getD (firstIdxEq l v) 0 = v
  | [], h => by
    obtain ⟨s, hs, _⟩ := h
    simp at hs
  | a :: l, h => by
    obtain ⟨s, hs, hsv⟩ := h
    by_cases hav : a = v
    · rw [firstIdxEq, if_pos hav]
      simpa using hav
    · rw [firstIdxEq, if_neg hav]
      match s with
      | 0 => exact absurd (by simpa using hsv) hav
      | s + 1 =>
        have ih := getD_firstIdxEq (v := v) (l := l)
          ⟨s, by simpa using hs, by simpa using hsv⟩
        simpa using ih

theorem firstIdxEq_min {v : ℚ} :
    ∀ {l : List ℚ} {j : ℕ}, j < firstIdxEq l v → l.getD j 0 ≠ v
  | [], j, hj => by
    rw [firstIdxEq] at hj
    omega
  | a :: l, j, hj => by
    by_cases hav : a = v
    · rw [firstIdxEq, if_pos hav] at hj
      omega
    · rw [firstIdxEq, if_neg hav] at hj
      match j with
      | 0 => simpa using hav
      | j + 1 =>
        have := firstIdxEq_min (v := v) (l := l) (j := j) (by omega)
        simpa using this

theorem argminIdx_lt_length : ∀ {l : List ℚ}, l ≠ [] → argminIdx l < l.length
  | [], h => absurd rfl h
  | [_], _ => by simp [argminIdx]
  | a :: b :: l, _ => by
    rw [argminIdx]
    have := argminIdx_lt_length (l := b :: l) (by simp)
    split
    · simp only [List.length_cons] at this ⊢
      omega
    · simp

theorem pctChange_getD (n : ℕ) (close : List ℚ) {t : ℕ} (ht : t < close.length) :
    (pctChange n close).getD t none =
      if t < n then none else some (close.getD t 0 / close.getD (t - n) 0 - 1) := by
  have hlen : t < ((List.range close.length).map fun t =>
      if t < n then none else some (close.getD t 0 / close.getD (t - n) 0 - 1)).length := by
    simpa using ht
  rw [pctChange, List.getD_eq_getElem _ _ hlen, List.getElem_map, List.getElem_range]

/-! ### Pointwise form and bounds of the drawdown columns -/

section DrawdownLemmas

variable {α : Type*} [LinearOrderedField α]

theorem length_scoringDrawdowns (prices : List α) :
    (scoringDrawdowns prices).length = prices.length := by
  simp [scoringDrawdowns, List.length_zipWith, length_cummax]

theorem length_plotDrawdown (close : List α) :
    (plotDrawdown close).length = close.length := by
  simp [plotDrawdown, List.length_zipWith, length_cummax]

theorem scoringDrawdowns_getD (prices : List α) {t : ℕ} (ht : t < prices.length) :
    (scoringDrawdowns prices).getD t 0 =
      ((cummax prices).getD t 0 - prices.getD t 0) / (cummax prices).getD t 0 := by
  exact getD_zipWith _ 0 0 0 _ _ t (by rwa [length_cummax]) ht

theorem plotDrawdown_getD (close : List α) {t : ℕ} (ht : t < close.length) :
    (plotDrawdown close).getD t 0 =
      (close.getD t 0 - (cummax close).getD t 0) / (cummax close).getD t 0 := by
  exact getD_zipWith _ 0 0 0 _ _ t ht (by rwa [length_cummax])

theorem cummax_getD_pos {close : List α} (hpos : ∀ x ∈ close, 0 < x) {t : ℕ}
    (ht : t < close.length) : 0 < (cummax close).getD t 0 :=
  lt_of_mem_cummax hpos _ (getD_mem (by rwa [length_cummax]) 0)

theorem zipWith_sub_div_self (l : List α) :
    List.zipWith (fun m p => (m - p) / m) l l = l.map fun _ => (0 : α) := by
  induction l with
  | nil => rfl
  | cons a l ih => simp [ih]

theorem foldl_max_zeros {β : Type*} (l : List β) :
    ((l.map fun _ => (0 : α)).foldl max 0) = 0 := by
  induction l with
  | nil => rfl
  | cons a l ih => simpa using ih

theorem npMaxD_zeros {β : Type*} (l : List β) :
    npMaxD (0 : α) (l.map fun _ => 0) = 0 := by
  match l with
  | [] => rfl
  | a :: l =>
    rw [List.map_cons, npMaxD]
    exact foldl_max_zeros l

theorem cummaxAux_getD_eq_prefix_max (d : α) :
    ∀ (m : α) (l : List α) (t : ℕ), t < l.length →
      (cummaxAux m l).getD t d = (l.take (t + 1)).foldl max m
  | _, [], _, ht => absurd ht (by simp)
  | m, a :: l, 0, _ => by simp [cummaxAux]
  | m, a :: l, t + 1, ht => by
    have := cummaxAux_getD_eq_prefix_max d (max m a) l t (by simpa using ht)
    simpa [cummaxAux] using this

theorem cummax_getD_eq_prefix_max (d : α) :
    ∀ (l : List α) (t : ℕ), t < l.length →
      (cummax l).getD t d = npMaxD d (l.take (t + 1))
  | [], _, ht => absurd ht (by simp)
  | a :: l, 0, _ => by simp [cummax, npMaxD]
  | a :: l, t + 1, ht => by
    have := cummaxAux_getD_eq_prefix_max d a l t (by simpa using ht)
    simpa [cummax, npMaxD] using this

end DrawdownLemmas

/-! ### Claim theorems -/

/-- Claim C1: for the four-point price series `[100, 120, 90, 150]` at four
equally spaced dates with `annualization_factor = 4`, the analytics yield a
maximum drawdown of `(120 - 90)/120 = 1/4` (as computed by
`compute_stock_score`), attained at index 2 (the `idxmin` trough of
`calculate_metrics`, whose signed column value there is `-1/4`), a peak date
at index 1, a recovery date at index 3, and an annualized return of
`(150/100)^(4/4) - 1 = 1/2`. -/
theorem C1_four_point_scenario :
    maxDD [(100 : ℝ), 120, 90, 150] = 1 / 4 ∧
    annReturn [(100 : ℝ), 120, 90, 150] 4 = 1 / 2 ∧
    (calculateMetrics (Frame.mk [0, 1, 2, 3] [100, 120, 90, 150]
        none none none none none)).2 =
      Stats.mk 2 (-(1 / 4)) 1 (some 3) := by
  refine ⟨?_, ?_, ?_⟩
  · norm_num [maxDD, scoringDrawdowns, cummax, cummaxAux, npMaxD, max_def]
  · have hlen : ((4 : ℕ) : ℝ) / (([(100 : ℝ), 120, 90, 150]).length : ℝ) = 1 := by
      norm_num
    rw [annReturn, hlen, Real.rpow_one]
    norm_num [List.getLastD]
  · norm_num [calculateMetrics, mddIdx, peakIdx, peakValue, recoveryIdx, plotDrawdown,
      cummax, cummaxAux, argminIdx, firstIdxEq, firstIdxGe, npMinD, max_def, min_def,
      List.getD]

/-- Claim C3 counterexample: the singleton series `[-1]` contains a
non-positive price, yet `compute_stock_score` surfaces no error of any kind
for it — the length guard at lines 33-34 returns the `-np.inf` sentinel
before the log-transform is ever reached, so this invalid price is never
rejected. -/
theorem C3_counterexample :
    ((-1 : ℝ) ∈ [(-1 : ℝ)] ∧ (-1 : ℝ) ≤ 0) ∧
    computeScore [(-1 : ℝ)] 2 (-3) 1 252 = Except.ok (⊥ : EReal) ∧
    ∀ e : PyError, computeScore [(-1 : ℝ)] 2 (-3) 1 252 ≠ Except.error e := by
  have hok : computeScore [(-1 : ℝ)] 2 (-3) 1 252 = Except.ok (⊥ : EReal) := by
    rw [computeScore, if_pos (by simp)]
  refine ⟨⟨by simp, by norm_num⟩, hok, ?_⟩
  intro e
  rw [hok]
  simp

/-- Claim C3, amended: `compute_stock_score` has no validation step of its
own, but for every series of length at least 2 that contains a non-positive
price and any weights, an exception is surfaced to the caller — the
`ValueError` raised by the least-squares fit when the log-transform has
produced non-finite values (the spec's `DomainError` class) — and the value
is never coerced or clamped; a series with fewer than 2 points, however,
returns the `-∞` sentinel with no error even when it contains non-positive
prices. -/
theorem C3_invalid_prices_error (prices : List ℝ) (w₁ w₂ w₃ : ℝ) (af : ℕ)
    (h2 : 2 ≤ prices.length) (hneg : ∃ x ∈ prices, x ≤ 0) :
    computeScore prices w₁ w₂ w₃ af = Except.error PyError.valueError := by
  rw [computeScore, if_neg (by omega), if_pos hneg]

theorem C3_witness :
    2 ≤ ([(-1 : ℝ), 1]).length ∧ ((-1 : ℝ) ∈ [(-1 : ℝ), 1] ∧ (-1 : ℝ) ≤ 0) ∧
    computeScore [(-1 : ℝ), 1] 2 (-3) 1 252 = Except.error PyError.valueError :=
  ⟨by norm_num, ⟨by simp, by norm_num⟩,
    C3_invalid_prices_error [(-1 : ℝ), 1] 2 (-3) 1 252 (by norm_num)
      ⟨-1, by simp, by norm_num⟩⟩

/-- Claim C6: on a series with fewer than 2 points, `compute_stock_score`
returns the `-np.inf` sentinel (`⊥` in `EReal`) as a normal return value for
any weights; it is not propagated as an exception. -/
theorem C6_short_series_sentinel (prices : List ℝ) (w₁ w₂ w₃ : ℝ) (af : ℕ)
    (h : prices.length < 2) :
    computeScore prices w₁ w₂ w₃ af = Except.ok (⊥ : EReal) := by
  rw [computeScore, if_pos h]

theorem C6_witness :
    ([] : List ℝ).length < 2 ∧
      computeScore [] 2 (-3) 1 252 = Except.ok (⊥ : EReal) :=
  ⟨by norm_num, C6_short_series_sentinel [] 2 (-3) 1 252 (by norm_num)⟩

/-- Claim C7: for every series of at least two strictly positive prices and
any weights, `compute_stock_score` is deterministic and returns a finite
score: the result is `Except.ok` of the coercion of a real number, hence
neither the `-∞` sentinel nor `+∞` (the real-number semantics of the float
computation; IEEE `NaN` has no counterpart in this model). -/
theorem C7_deterministic_finite (prices : List ℝ) (w₁ w₂ w₃ : ℝ) (af : ℕ)
    (h2 : 2 ≤ prices.length) (hpos : ∀ x ∈ prices, 0 < x) :
    computeScore prices w₁ w₂ w₃ af = computeScore prices w₁ w₂ w₃ af ∧
    ∃ r : ℝ, computeScore prices w₁ w₂ w₃ af = Except.ok (r : EReal) ∧
      (r : EReal) ≠ ⊥ ∧ (r : EReal) ≠ ⊤ := by
  refine ⟨rfl, w₁ * annReturn prices af + w₂ * maxDD prices + w₃ * slopeToNoise prices,
    ?_, EReal.coe_ne_bot _, EReal.coe_ne_top _⟩
  rw [computeScore, if_neg (by omega), if_neg (by push_neg; exact hpos)]

theorem C7_witness :
    2 ≤ ([(1 : ℝ), 2]).length ∧ (∀ x ∈ [(1 : ℝ), 2], 0 < x) ∧
    ∃ r : ℝ, computeScore [(1 : ℝ), 2] 2 (-3) 1 252 = Except.ok (r : EReal) ∧
      (r : EReal) ≠ ⊥ ∧ (r : EReal) ≠ ⊤ :=
  ⟨by norm_num, by norm_num,
    (C7_deterministic_finite [1, 2] 2 (-3) 1 252 (by norm_num) (by norm_num)).2⟩

/-- Claim C10 counterexample: `calculate_metrics` is not mutation-free on the
caller's frame — called on a frame holding only dates and closes, it hands
back the caller's frame object extended in place with the derived columns,
so the frame after the call differs from the frame before it. -/
theorem C10_counterexample :
    (calculateMetrics (Frame.mk [0, 1] [2, 1] none none none none none)).1 ≠
      Frame.mk [0, 1] [2, 1] none none none none none := by
  intro h
  have hpeak := congrArg Frame.peak h
  simp [calculateMetrics] at hpeak

/-- Claim C10, amended: `compute_stock_score` is a pure function of its
input, and `calculate_metrics` recomputes every derived column from scratch
on each invocation without altering the caller's close prices or date index;
however, it does extend the caller's frame in place with the derived columns
`Peak`, `Drawdown` and `Return_1Y/2Y/3Y` (so the frame object is mutated,
gaining columns, even though the price series itself is untouched). -/
theorem C10_frame_effect (df : Frame) :
    ((calculateMetrics df).1.dates = df.dates ∧
      (calculateMetrics df).1.close = df.close) ∧
    (calculateMetrics df).1.peak = some (cummax df.close) ∧
    (calculateMetrics df).1.drawdown = some (plotDrawdown df.close) ∧
    (calculateMetrics df).1.ret1Y = some (return1Y df.close) ∧
    (calculateMetrics df).1.ret2Y = some (return2Y df.close) ∧
    (calculateMetrics df).1.ret3Y = some (return3Y df.close) :=
  ⟨⟨rfl, rfl⟩, rfl, rfl, rfl, rfl, rfl⟩

/-- Claim C2 counterexample: at the strictly positive series `[2, 1]` and
index 1, the per-day drawdown column of `calculate_metrics` is
`(1 - 2)/2 = -1/2`, which is not `(runningPeak - price)/runningPeak = 1/2`:
the code stores the signed (non-positive) drawdown, not the spec's
non-negative magnitude. -/
theorem C2_counterexample :
    ((0 : ℚ) < 2 ∧ (0 : ℚ) < 1) ∧
    (plotDrawdown [(2 : ℚ), 1]).getD 1 0 = -(1 / 2) ∧
    (plotDrawdown [(2 : ℚ), 1]).getD 1 0 ≠
      ((cummax [(2 : ℚ), 1]).getD 1 0 - ([(2 : ℚ), 1]).getD 1 0) /
        (cummax [(2 : ℚ), 1]).getD 1 0 := by
  norm_num [plotDrawdown, cummax, cummaxAux, max_def, List.getD]

/-- Claim C2, amended: for every strictly positive price series, the per-day
drawdown column value at index `t` equals
`(price[t] - runningPeak[t]) / runningPeak[t]` where
`runningPeak[t] = max(price[0..t])` — the negation of the claimed formula;
every value lies in `(-1, 0]`, and the value equals `0` at every index where
the price equals its running maximum. -/
theorem C2_drawdown_pointwise (close : List ℚ) (hpos : ∀ x ∈ close, 0 < x)
    {t : ℕ} (ht : t < close.length) :
    (plotDrawdown close).getD t 0 =
      (close.getD t 0 - (cummax close).getD t 0) / (cummax close).getD t 0 ∧
    (cummax close).getD t 0 = npMaxD 0 (close.take (t + 1)) ∧
    (-1 < (plotDrawdown close).getD t 0 ∧ (plotDrawdown close).getD t 0 ≤ 0) ∧
    (close.getD t 0 = (cummax close).getD t 0 → (plotDrawdown close).getD t 0 = 0) := by
  have heq := plotDrawdown_getD close ht
  have hm : 0 < (cummax close).getD t 0 := cummax_getD_pos hpos ht
  have hpm : close.getD t 0 ≤ (cummax close).getD t 0 := getD_le_cummax 0 close t ht
  have hp : 0 < close.getD t 0 := hpos _ (getD_mem ht 0)
  refine ⟨heq, cummax_getD_eq_prefix_max 0 close t ht, ⟨?_, ?_⟩, ?_⟩
  · rw [heq, lt_div_iff₀ hm]
    linarith
  · rw [heq, div_nonpos_iff]
    right
    exact ⟨by linarith, hm.le⟩
  · intro h0
    rw [heq, h0, sub_self, zero_div]

theorem C2_witness :
    (∀ x ∈ [(2 : ℚ), 1], 0 < x) ∧ 1 < ([(2 : ℚ), 1]).length ∧
    (-1 < (plotDrawdown [(2 : ℚ), 1]).getD 1 0 ∧
      (plotDrawdown [(2 : ℚ), 1]).getD 1 0 ≤ 0) :=
  ⟨by norm_num, by norm_num,
    (C2_drawdown_pointwise [2, 1] (by norm_num) (t := 1) (by norm_num)).2.2.1⟩

/-- Claim C5: for every strictly positive price series of length at least 2,
the maximum drawdown computed inside `compute_stock_score` lies in `[0, 1)`,
and it equals 0 if and only if the series is non-decreasing. -/
theorem C5_maxdd_range (prices : List ℝ) (h2 : 2 ≤ prices.length)
    (hpos : ∀ x ∈ prices, 0 < x) :
    0 ≤ maxDD prices ∧ maxDD prices < 1 ∧
      (maxDD prices = 0 ↔ List.Chain' (· ≤ ·) prices) := by
  have hne : scoringDrawdowns prices ≠ [] := by
    intro hc
    have hlen := length_scoringDrawdowns prices
    rw [hc] at hlen
    simp at hlen
    omega
  have helem : ∀ a ∈ scoringDrawdowns prices, 0 ≤ a ∧ a < 1 := by
    intro a ha
    obtain ⟨i, hi, hia⟩ := List.mem_iff_getElem.mp ha
    have hi' : i < prices.length := by rwa [length_scoringDrawdowns] at hi
    have hget : (scoringDrawdowns prices).getD i 0 = a := by
      rw [List.getD_eq_getElem _ _ hi]
      exact hia
    have hd := scoringDrawdowns_getD prices hi'
    rw [hget] at hd
    have hm : 0 < (cummax prices).getD i 0 := cummax_getD_pos hpos hi'
    have hpm : prices.getD i 0 ≤ (cummax prices).getD i 0 := getD_le_cummax 0 prices i hi'
    have hp : 0 < prices.getD i 0 := hpos _ (getD_mem hi' 0)
    constructor
    · rw [hd]
      exact div_nonneg (by linarith) hm.le
    · rw [hd, div_lt_one hm]
      linarith
  have hmem : maxDD prices ∈ scoringDrawdowns prices := npMaxD_mem 0 hne
  refine ⟨(helem _ hmem).1, (helem _ hmem).2, ?_, ?_⟩
  · intro h0
    have hself : cummax prices = prices := by
      apply List.ext_getElem (length_cummax prices)
      intro i h1 h2
      have hi' : i < prices.length := h2
      have hdm : (scoringDrawdowns prices).getD i 0 ∈ scoringDrawdowns prices :=
        getD_mem (by rwa [length_scoringDrawdowns]) 0
      have hle : (scoringDrawdowns prices).getD i 0 ≤ 0 := by
        have := le_npMaxD_of_mem 0 hdm
        rw [maxDD] at h0
        rwa [h0] at this
      have hge : 0 ≤ (scoringDrawdowns prices).getD i 0 := (helem _ hdm).1
      have hzero : (scoringDrawdowns prices).getD i 0 = 0 := le_antisymm hle hge
      rw [scoringDrawdowns_getD prices hi'] at hzero
      have hm : 0 < (cummax prices).getD i 0 := cummax_getD_pos hpos hi'
      rcases div_eq_zero_iff.mp hzero with hnum | hden
      · have : (cummax prices).getD i 0 = prices.getD i 0 := by linarith [sub_eq_zero.mp hnum]
        rw [List.getD_eq_getElem _ _ h1, List.getD_eq_getElem _ _ h2] at this
        exact this
      · exact absurd hden (ne_of_gt hm)
    rw [← cummax_eq_self_iff_chain']
    exact hself
  · intro hch
    rw [maxDD, scoringDrawdowns, (cummax_eq_self_iff_chain' prices).mpr hch,
      zipWith_sub_div_self, npMaxD_zeros]

theorem C5_witness :
    2 ≤ ([(1 : ℝ), 2]).length ∧ (∀ x ∈ [(1 : ℝ), 2], 0 < x) ∧
    (0 ≤ maxDD [(1 : ℝ), 2] ∧ maxDD [(1 : ℝ), 2] < 1 ∧
      (maxDD [(1 : ℝ), 2] = 0 ↔ List.Chain' (· ≤ ·) [(1 : ℝ), 2])) :=
  ⟨by norm_num, by norm_num, C5_maxdd_range [1, 2] (by norm_num) (by norm_num)⟩

/-- Modelled from the spec: "the last index where `price == runningPeak` at
or before `max_drawdown_date`" — the greatest position `s ≤ mddIdx` whose
price equals the running peak at `s`.  Used only to compare the spec's
definition of `peak_date` with the code's `peakIdx`. -/
def specPeakIdx (close : List ℚ) : ℕ :=
  Nat.findGreatest (fun s => close.getD s 0 = (cummax close).getD s 0) (mddIdx close)

/-- Claim C4 counterexample: for the series `[100, 50, 100, 40]` the trough
is at index 3 with running peak 100; the last index at or before the trough
whose price equals its running peak is 2, but the code
(`df[df['Close'] == peak_value].index[0]`) picks the first occurrence of the
peak value in the whole series, index 0. -/
theorem C4_counterexample :
    peakIdx [(100 : ℚ), 50, 100, 40] = 0 ∧
    specPeakIdx [(100 : ℚ), 50, 100, 40] = 2 ∧
    peakIdx [(100 : ℚ), 50, 100, 40] ≠ specPeakIdx [(100 : ℚ), 50, 100, 40] := by
  norm_num [peakIdx, specPeakIdx, mddIdx, peakValue, firstIdxEq, plotDrawdown, cummax,
    cummaxAux, argminIdx, max_def, List.getD, Nat.findGreatest]

/-- Claim C4, amended: `peak_date` is the date of the *first* index in the
whole series whose price equals the running-peak value at
`max_drawdown_date`.  That index always lies at or before
`max_drawdown_date`, its price equals the running peak at that point, and no
earlier index attains the peak value — but it is the first, not the last,
such index. -/
theorem C4_peak_first_occurrence (close : List ℚ) (h : close ≠ []) :
    peakIdx close ≤ mddIdx close ∧
    close.getD (peakIdx close) 0 = peakValue close ∧
    (cummax close).getD (peakIdx close) 0 = peakValue close ∧
    ∀ j < peakIdx close, close.getD j 0 ≠ peakValue close := by
  have hmdd : mddIdx close < close.length := by
    have h1 : plotDrawdown close ≠ [] := by
      intro hc
      apply h
      have hlen := length_plotDrawdown close
      rw [hc] at hlen
      exact List.length_eq_zero.mp hlen.symm
    have := argminIdx_lt_length h1
    rwa [length_plotDrawdown] at this
  obtain ⟨s, hs, hsv⟩ := cummax_getD_attained 0 close (mddIdx close) hmdd
  have hs_len : s < close.length := lt_of_le_of_lt hs hmdd
  have hocc : close.getD s 0 = peakValue close := hsv.symm
  have hk_le_s : peakIdx close ≤ s := firstIdxEq_le hs_len hocc
  have hk_le : peakIdx close ≤ mddIdx close := le_trans hk_le_s hs
  have hk_len : peakIdx close < close.length := lt_of_le_of_lt hk_le hmdd
  have hkv : close.getD (peakIdx close) 0 = peakValue close :=
    getD_firstIdxEq ⟨s, hs_len, hocc⟩
  refine ⟨hk_le, hkv, ?_, fun j hj => firstIdxEq_min hj⟩
  have h1 : close.getD (peakIdx close) 0 ≤ (cummax close).getD (peakIdx close) 0 :=
    getD_le_cummax 0 close _ hk_len
  have h2 : (cummax close).getD (peakIdx close) 0 ≤ (cummax close).getD (mddIdx close) 0 :=
    cummax_getD_mono close 0 hk_le hmdd
  rw [hkv] at h1
  exact le_antisymm h2 h1

theorem C4_witness :
    peakIdx [(2 : ℚ), 1] ≤ mddIdx [(2 : ℚ), 1] ∧
    ([(2 : ℚ), 1]).getD (peakIdx [(2 : ℚ), 1]) 0 = peakValue [(2 : ℚ), 1] ∧
    (cummax [(2 : ℚ), 1]).getD (peakIdx [(2 : ℚ), 1]) 0 = peakValue [(2 : ℚ), 1] ∧
    ∀ j < peakIdx [(2 : ℚ), 1], ([(2 : ℚ), 1]).getD j 0 ≠ peakValue [(2 : ℚ), 1] :=
  C4_peak_first_occurrence [2, 1] (by simp)

/-- Claim C8: for each horizon `k ∈ {1, 2, 3}` (lookbacks 252, 504 and
`252*3` positions, the code's hardcoded `k * annualization_factor` for the
canonical factor 252) and every index `t` of a strictly positive series, the
rolling-return column is absent (`none`, pandas `NaN` — not zero-filled) for
`t` below the lookback, and for `t` at or above it the value is present and
equals `price[t]/price[t - lookback] - 1`, with a nonzero divisor. -/
theorem C8_rolling_returns (close : List ℚ) (hpos : ∀ x ∈ close, 0 < x)
    {t : ℕ} (ht : t < close.length) :
    ((t < 252 → (return1Y close).getD t none = none) ∧
      (252 ≤ t → (return1Y close).getD t none =
          some (close.getD t 0 / close.getD (t - 252) 0 - 1) ∧
        close.getD (t - 252) 0 ≠ 0)) ∧
    ((t < 504 → (return2Y close).getD t none = none) ∧
      (504 ≤ t → (return2Y close).getD t none =
          some (close.getD t 0 / close.getD (t - 504) 0 - 1) ∧
        close.getD (t - 504) 0 ≠ 0)) ∧
    ((t < 252 * 3 → (return3Y close).getD t none = none) ∧
      (252 * 3 ≤ t → (return3Y close).getD t none =
          some (close.getD t 0 / close.getD (t - 252 * 3) 0 - 1) ∧
        close.getD (t - 252 * 3) 0 ≠ 0)) := by
  have key : ∀ n : ℕ,
      (t < n → (pctChange n close).getD t none = none) ∧
      (n ≤ t → (pctChange n close).getD t none =
          some (close.getD t 0 / close.getD (t - n) 0 - 1) ∧
        close.getD (t - n) 0 ≠ 0) := by
    intro n
    constructor
    · intro hn
      rw [pctChange_getD n close ht, if_pos hn]
    · intro hn
      refine ⟨by rw [pctChange_getD n close ht, if_neg (by omega)], ?_⟩
      have htn : t - n < close.length := by omega
      exact ne_of_gt (hpos _ (getD_mem htn 0))
  exact ⟨key 252, key 504, key (252 * 3)⟩

theorem C8_witness :
    0 < ([(1 : ℚ)]).length ∧ (∀ x ∈ [(1 : ℚ)], 0 < x) ∧
    (return1Y [(1 : ℚ)]).getD 0 none = none :=
  ⟨by norm_num, by norm_num,
    (C8_rolling_returns [1] (by norm_num) (t := 0) (by norm_num)).1.1 (by norm_num)⟩

/-! ### Helper computations on a constant four-point series (for claim C9) -/

theorem listMean_four (c : ℝ) : listMean [c, c, c, c] = c := by
  simp only [listMean, List.sum_cons, List.sum_nil, List.length_cons, List.length_nil]
  norm_num
  ring

theorem idxList_four : idxList 4 = [(0 : ℝ), 1, 2, 3] := by
  norm_num [idxList, List.range_succ]

theorem olsSlope_const_four (c : ℝ) : olsSlope [c, c, c, c] = 0 := by
  have h4 : ([c, c, c, c] : List ℝ).length = 4 := by norm_num
  simp only [olsSlope, h4, idxList_four, listMean_four]
  norm_num

theorem olsIntercept_const_four (c : ℝ) : olsIntercept [c, c, c, c] = c := by
  rw [olsIntercept, olsSlope_const_four, listMean_four]
  ring

theorem olsResiduals_const_four (c : ℝ) : olsResiduals [c, c, c, c] = [0, 0, 0, 0] := by
  have h4 : ([c, c, c, c] : List ℝ).length = 4 := by norm_num
  simp only [olsResiduals, h4, idxList_four, olsIntercept_const_four, olsSlope_const_four]
  norm_num

theorem npStd_four_zeros : npStd [(0 : ℝ), 0, 0, 0] = 0 := by
  have hmean : listMean [(0 : ℝ), 0, 0, 0] = 0 := by
    simp [listMean]
  simp only [npStd, hmean]
  norm_num [listMean, Real.sqrt_zero]

theorem noise_const_four (p : ℝ) : noise [p, p, p, p] = 0 := by
  rw [noise, logPrices]
  simp only [List.map_cons, List.map_nil]
  rw [olsResiduals_const_four, npStd_four_zeros]

theorem annReturn_const_four (af : ℕ) : annReturn [(50 : ℝ), 50, 50, 50] af = 0 := by
  have h1 : ([(50 : ℝ), 50, 50, 50]).getLastD 0 / ([(50 : ℝ), 50, 50, 50]).headD 0 = 1 := by
    norm_num [List.getLastD]
  rw [annReturn, h1, Real.one_rpow]
  norm_num

/-- Claim C9: whenever the OLS log-price fit has zero residual standard
deviation, `compute_stock_score` sets the slope-to-noise term to 0 instead
of dividing; in particular for the constant series `[50, 50, 50, 50]` the
maximum drawdown is 0, the slope-to-noise is 0 through the degenerate
branch, and for any weights the score reduces to
`ann_return_weight * 0` (the annualized return being `1^e - 1 = 0`). -/
theorem C9_degenerate_noise :
    (∀ prices : List ℝ, noise prices = 0 → slopeToNoise prices = 0) ∧
    maxDD [(50 : ℝ), 50, 50, 50] = 0 ∧
    slopeToNoise [(50 : ℝ), 50, 50, 50] = 0 ∧
    ∀ (w₁ w₂ w₃ : ℝ) (af : ℕ),
      computeScore [(50 : ℝ), 50, 50, 50] w₁ w₂ w₃ af =
        Except.ok ((w₁ * 0 : ℝ) : EReal) := by
  have hguard : ∀ prices : List ℝ, noise prices = 0 → slopeToNoise prices = 0 := by
    intro prices h0
    rw [slopeToNoise, if_neg (not_not_intro h0)]
  have hstn : slopeToNoise [(50 : ℝ), 50, 50, 50] = 0 := hguard _ (noise_const_four 50)
  have hmdd : maxDD [(50 : ℝ), 50, 50, 50] = 0 := by
    norm_num [maxDD, scoringDrawdowns, cummax, cummaxAux, npMaxD, max_self]
  refine ⟨hguard, hmdd, hstn, ?_⟩
  intro w₁ w₂ w₃ af
  rw [computeScore, if_neg (by norm_num), if_neg (by push_neg; norm_num),
    annReturn_const_four af, hmdd, hstn]
  norm_num

theorem C9_witness : slopeToNoise [(50 : ℝ), 50, 50, 50] = 0 :=
  C9_degenerate_noise.1 [50, 50, 50, 50] (noise_const_four 50)

end StockScreen
